import Mathlib

/-
Verification of the core data model and planning layer of the rq columnar
query engine: schemas, logical expressions and plans, the in-memory data
source, the scan and projection physical operators, and the query planner.

Rust `Result` values and Rust panics are modelled by a single failure type
with two constructors, so that "returned an error value to the caller" and
"aborted with a panic" stay distinguishable: `Failure.err` embeds an
`anyhow::Error` carried in a `Result::Err`, while `Failure.panic` embeds an
aborted execution (an `assert!`, `unwrap`, `expect` or `unreachable!`).
-/

namespace Rq

/-- The closed set of primitive type tags (`DataType` in
`data_types/column_array.rs`, used throughout `data_types/schema.rs`). -/
inductive DataType
  | Boolean
  | Int32
  | Int64
  | Float32
  | Float64
  | Utf8
deriving DecidableEq, Repr

/-- A named, typed column descriptor (`Field` in `data_types/schema.rs`). -/
structure Field where
  name : String
  data_type : DataType
deriving DecidableEq, Repr

/-- A schema is a list of fields (`Schema` in `data_types/schema.rs`). -/
structure Schema where
  fields : List Field
deriving DecidableEq, Repr

/-- Outcome of a fallible or abortable computation: `err` is a Rust
`Result::Err` value surfaced to the caller, `panic` is an aborted execution
(assertion failure, `unwrap`/`expect` on an `Err`, or `unreachable!`). -/
inductive Failure
  | err (msg : String)
  | panic (msg : String)
deriving DecidableEq, Repr

deriving instance DecidableEq for Except

/-- Result of running a piece of the engine: a value, a surfaced error
value, or a panic. -/
abbrev Res (α : Type) : Type := Except Failure α

/-- True exactly when the computation surfaced an error value (a Rust
`Result::Err`) to the caller. -/
def isErrFailure : Res α → Bool
  | .error (.err _) => true
  | _ => false

/-- True exactly when the computation aborted with a panic. -/
def isPanicFailure : Res α → Bool
  | .error (.panic _) => true
  | _ => false

/-- Sequencing of a fallible computation over a list, stopping at the first
failure; this is the meaning of Rust `collect::<Result<Vec<_>>>()` and of a
loop whose body can fail. -/
def mapExc (f : α → Res β) : List α → Res (List β)
  | [] => Except.ok []
  | x :: xs => do
    let y ← f x
    let ys ← mapExc f xs
    Except.ok (y :: ys)

/-- Loop body of `Schema::select` from `data_types/schema.rs` for one
requested name: filter the fields with that name, `assert!` that exactly
one matched (anything else is a panic, not an error value), and yield that
field. -/
def selectOne (s : Schema) (n : String) : Res Field :=
  match s.fields.filter (fun f => f.name == n) with
  | [f] => Except.ok f
  | _ => Except.error (Failure.panic ("assertion failed: fields.len() == 1"))

/-- `Schema::select` from `data_types/schema.rs`: run the loop body over
the requested names in order and collect the selected fields. -/
def Schema.select (s : Schema) (names : List String) : Res Schema := do
  let fs ← mapExc (selectOne s) names
  Except.ok (Schema.mk fs)

/-- Rust `position`: index of the first element satisfying the predicate. -/
def position (p : α → Bool) : List α → Option Nat
  | [] => none
  | x :: xs => if p x then some 0 else (position p xs).map (· + 1)

/-- A dynamically typed single value (`ScalarValue` in
`logical_plan/expr.rs`). Machine integers are modelled as unbounded `Int`
(no claim involves overflow); `f32`/`f64` payloads are modelled as their
bit patterns, since no claim depends on floating-point arithmetic. -/
inductive ScalarValue
  | String (s : String)
  | Int32 (i : Int)
  | Int64 (i : Int)
  | Float32 (bits : Nat)
  | Float64 (bits : Nat)
deriving DecidableEq, Repr

/-- Textual form of a float literal, abstracted as the decimal form of its
bit pattern; no claim inspects the textual form of a float. -/
def floatRepr (bits : Nat) : String := toString bits

/-- `ScalarValue::to_field`: a literal resolves to a field whose name is
the literal's textual form and whose type matches the tag. In the source
this returns `Result` but is always `Ok`; the wrapping happens at the
`Expr` dispatch below. -/
def ScalarValue.to_field : ScalarValue → Field
  | .String s => ⟨s, .Utf8⟩
  | .Int32 i => ⟨toString i, .Int32⟩
  | .Int64 i => ⟨toString i, .Int64⟩
  | .Float32 b => ⟨floatRepr b, .Float32⟩
  | .Float64 b => ⟨floatRepr b, .Float64⟩

/-- The thirteen binary operators (`Operator` in `logical_plan/expr.rs`). -/
inductive Operator
  | And
  | Or
  | Eq
  | Neq
  | Gt
  | GtEq
  | Lt
  | LtEq
  | Add
  | Subtract
  | Multiply
  | Divide
  | Modulus
deriving DecidableEq, Repr

/-- `Operator::get_name` from `logical_plan/expr.rs`: the token naming the
output field of a binary expression. -/
def Operator.get_name : Operator → String
  | .And => "and"
  | .Or => "or"
  | .Eq => "eq"
  | .Neq => "neq"
  | .Gt => "gt"
  | .GtEq => "gteq"
  | .Lt => "lt"
  | .LtEq => "lteq"
  | .Add => "add"
  | .Subtract => "subtract"
  | .Multiply => "mult"
  | .Divide => "div"
  | .Modulus => "mod"

/-- The aggregate functions (`AggregateFunction` in `logical_plan/expr.rs`). -/
inductive AggregateFunction
  | Sum
  | Min
  | Max
  | Avg
  | Count
  | CountDistinct
deriving DecidableEq, Repr

/-- `AggregateFunction::get_name` from `logical_plan/expr.rs`. -/
def AggregateFunction.get_name : AggregateFunction → String
  | .Sum => "sum"
  | .Min => "min"
  | .Max => "max"
  | .Avg => "avg"
  | .Count => "count"
  | .CountDistinct => "count_distinct"

/-- The logical expression algebra (`Expr` in `logical_plan/expr.rs`).
The `Not` struct of the source carries two constant string fields
(always "not" / "NOT"); they are constants folded into `to_field` and
display, so only the inner expression is kept here. -/
inductive Expr
  | column (name : String)
  | columnIndex (index : Nat)
  | literal (v : ScalarValue)
  | not (expr : Expr)
  | cast (expr : Expr) (data_type : DataType)
  | binaryExpr (op : Operator) (left : Expr) (right : Expr)
  | alias (expr : Expr) (name : String)
  | scalarFunction (name : String) (args : List Expr) (return_type : DataType)
  | aggregateFunction (fn : AggregateFunction) (expr : Expr) (is_distinct : Bool)

/-- A single dynamically typed cell of a column, as surfaced by
`ColumnArray::get_value` (the source tests downcast such values to `bool`
and `i32`). Modelled from the spec: `column_array.rs` is not under `src/`.
Float cells are carried as bit patterns. -/
inductive Cell
  | cBool (b : Bool)
  | cStr (s : String)
  | cInt32 (i : Int)
  | cInt64 (i : Int)
  | cFloat32 (bits : Nat)
  | cFloat64 (bits : Nat)
deriving DecidableEq, Repr

/-- Modelled from the spec: a `ColumnArray` (`column_array.rs`, not under
`src/`) is an immutable typed column whose observable behavior is its list
of cells; `size()` is the length of that list. -/
structure ColumnArray where
  values : List Cell
deriving DecidableEq, Repr

/-- `ColumnArray::size`: the row count of the column. -/
def ColumnArray.size (c : ColumnArray) : Nat := c.values.length

/-- Modelled from the spec: a `RecordBatch` (`record_batch.rs`, not under
`src/`) is a schema together with a list of columns, addressable by
position. -/
structure RecordBatch where
  schema : Schema
  fields : List ColumnArray
deriving DecidableEq, Repr

/-- `RecordBatch::field(i)`: positional column access. Access past the end
is an engine bug (the source would panic); it is modelled totally with an
empty column so that batch-shape statements need no side conditions: every
theorem that relies on `field` establishes the index is in range. -/
def RecordBatch.field (b : RecordBatch) (i : Nat) : ColumnArray :=
  b.fields.getD i (ColumnArray.mk [])

/-- Modelled from the spec: `row_count()` of a batch is the common size of
its columns (0 for a batch with no columns). -/
def RecordBatch.rowCount (b : RecordBatch) : Nat :=
  (b.fields.headD (ColumnArray.mk [])).size

/-- The in-memory data source (`data_source/memory_data_source.rs`): a
schema plus stored batches. The CSV source is an external collaborator and
is out of scope, so the `Source` enum is modelled by its only in-scope
variant. -/
structure MemoryDataSource where
  schema : Schema
  data : List RecordBatch
deriving DecidableEq, Repr

/-- `MemoryDataSource::scan` from `data_source/memory_data_source.rs`:
compute the positions of the projected names in the source schema —
`filter_map` silently drops names with no position — then emit, per stored
batch, a batch tagged with the full source schema whose columns are the
stored columns at those positions, in projection order. The surrounding
`Ok(...)` of the Rust signature is applied at `ScanExec::execute`. -/
def MemoryDataSource.scan (ds : MemoryDataSource) (projection : List String) :
    List RecordBatch :=
  let projection_indices :=
    projection.filterMap (fun name => position (fun f => f.name == name) ds.schema.fields)
  ds.data.map (fun batch =>
    RecordBatch.mk ds.schema (projection_indices.map (fun i => batch.field i)))

/-- The logical plan tree (`logical_plan/plan.rs`, whose node payloads are
`scan.rs`, `projection.rs`, `selection.rs` and `aggregate.rs`). -/
inductive Plan
  | scan (path : String) (source : MemoryDataSource) (projection : List String)
  | projection (input : Plan) (exprs : List Expr)
  | selection (input : Plan) (expr : Expr)
  | aggregate (input : Plan) (group_exprs : List Expr) (aggregate_exprs : List Expr)

/-- Rust `Result::unwrap`: an `Ok` value passes through, an `Err` becomes a
panic carrying the error message. -/
def unwrapRes : Res α → Res α
  | .ok a => .ok a
  | .error (.err m) => .error (.panic m)
  | .error (.panic m) => .error (.panic m)

/-- `LogicalExpr::to_field` of every expression variant
(`logical_plan/expr.rs`), written against the result of the input plan's
`schema()` call: the input plan is consumed only through `schema()`, so the
mutual recursion of the source factors into this structural function plus
`Plan.schema` below.
Variant by variant, following the source: a column looks its name up in
the input schema and surfaces an error value when absent; a column index
indexes the input schema's fields (out of range would panic); a literal
always resolves; `Not` resolves to `("not", Boolean)`; a cast keeps the
inner name and replaces the type; a binary expression resolves to the
operator token's name with type `Boolean` unconditionally; an alias keeps
the inner type under the new name; a scalar function carries its declared
return type; an aggregate function carries the inner expression's type. -/
def toFieldAux : Expr → Res Schema → Res Field
  | .column name, s => do
    let sch ← s
    match sch.fields.find? (fun f => f.name == name) with
    | some f => Except.ok f
    | none => Except.error (Failure.err ("No column named " ++ name))
  | .columnIndex i, s => do
    let sch ← s
    match sch.fields[i]? with
    | some f => Except.ok f
    | none => Except.error (Failure.panic ("index out of bounds"))
  | .literal v, _ => Except.ok v.to_field
  | .not _, _ => Except.ok (Field.mk "not" DataType.Boolean)
  | .cast e dt, s => do
    let f ← toFieldAux e s
    Except.ok (Field.mk f.name dt)
  | .binaryExpr op _ _, _ => Except.ok (Field.mk op.get_name DataType.Boolean)
  | .alias e n, s => do
    let f ← toFieldAux e s
    Except.ok (Field.mk n f.data_type)
  | .scalarFunction n _ rt, _ => Except.ok (Field.mk n rt)
  | .aggregateFunction fn e _, s => do
    let f ← toFieldAux e s
    Except.ok (Field.mk fn.get_name f.data_type)

/-- `LogicalPlan::schema` of every node.
Scan (`logical_plan/scan.rs`): the full source schema when the projection
list is empty, otherwise `select(projection)`.
Projection (`logical_plan/projection.rs`): each expression resolved against
the input, with `unwrap` (a resolution failure panics).
Selection (`logical_plan/selection.rs`): the input's schema.
Aggregate: modelled from the spec (`logical_plan/aggregate.rs` is not under
`src/`): group-expression fields then aggregate-expression fields, resolved
against the input like the projection node. No claim depends on the
aggregate case. -/
def Plan.schema : Plan → Res Schema
  | .scan _ source proj =>
    if proj.isEmpty then Except.ok source.schema
    else source.schema.select proj
  | .projection input exprs =>
    let s := Plan.schema input
    (mapExc (fun e => unwrapRes (toFieldAux e s)) exprs).map Schema.mk
  | .selection input _ => Plan.schema input
  | .aggregate input gs aggs =>
    let s := Plan.schema input
    (do
      let g ← mapExc (fun e => unwrapRes (toFieldAux e s)) gs
      let a ← mapExc (fun e => unwrapRes (toFieldAux e s)) aggs
      Except.ok (Schema.mk (g ++ a)))

/-- `LogicalExpr::to_field` against an input plan, as in the source
signature. -/
def Expr.to_field (e : Expr) (input : Plan) : Res Field :=
  toFieldAux e (Plan.schema input)

/-- `LogicalPlan::children` of every node. -/
def Plan.children : Plan → List Plan
  | .scan _ _ _ => []
  | .projection input _ => [input]
  | .selection input _ => [input]
  | .aggregate input _ _ => [input]

/-- The physical expression algebra produced by the planner
(`physical_plan/expr.rs` is not under `src/`; the constructors are those
the planner in `query_planner/planner.rs` produces: indexed columns,
literals, casts and binary expressions). -/
inductive PExpr
  | column (index : Nat)
  | literal (v : ScalarValue)
  | cast (expr : PExpr) (data_type : DataType)
  | binaryExpr (op : Operator) (left : PExpr) (right : PExpr)
deriving DecidableEq, Repr

/-- The cell a scalar literal contributes to a constant column. -/
def cellOfScalar : ScalarValue → Cell
  | .String s => .cStr s
  | .Int32 i => .cInt32 i
  | .Int64 i => .cInt64 i
  | .Float32 b => .cFloat32 b
  | .Float64 b => .cFloat64 b

/-- Modelled from the spec: element-wise binary operation on two cells
(`physical_plan/expr.rs` is not under `src/`; spec section 4.3).
Comparisons require operands of identical type and yield a boolean cell;
arithmetic requires identical integer types and yields the same type,
with integer division or remainder by zero failing the batch with an
error value; `And`/`Or` require boolean operands. Operations the claims
never touch (float arithmetic, float ordering) surface an error value.
Ordered comparisons are modelled on integers, strings and booleans. -/
def cellBinOp : Operator → Cell → Cell → Res Cell
  | .And, .cBool a, .cBool b => Except.ok (.cBool (a && b))
  | .Or, .cBool a, .cBool b => Except.ok (.cBool (a || b))
  | .Eq, a, b =>
    if sameCellType a b then Except.ok (.cBool (a == b))
    else Except.error (Failure.err ("type mismatch"))
  | .Neq, a, b =>
    if sameCellType a b then Except.ok (.cBool (a != b))
    else Except.error (Failure.err ("type mismatch"))
  | .Gt, .cInt32 a, .cInt32 b => Except.ok (.cBool (b < a))
  | .Gt, .cInt64 a, .cInt64 b => Except.ok (.cBool (b < a))
  | .Gt, .cStr a, .cStr b => Except.ok (.cBool (b < a))
  | .GtEq, .cInt32 a, .cInt32 b => Except.ok (.cBool (b ≤ a))
  | .GtEq, .cInt64 a, .cInt64 b => Except.ok (.cBool (b ≤ a))
  | .GtEq, .cStr a, .cStr b => Except.ok (.cBool (b ≤ a))
  | .Lt, .cInt32 a, .cInt32 b => Except.ok (.cBool (a < b))
  | .Lt, .cInt64 a, .cInt64 b => Except.ok (.cBool (a < b))
  | .Lt, .cStr a, .cStr b => Except.ok (.cBool (a < b))
  | .LtEq, .cInt32 a, .cInt32 b => Except.ok (.cBool (a ≤ b))
  | .LtEq, .cInt64 a, .cInt64 b => Except.ok (.cBool (a ≤ b))
  | .LtEq, .cStr a, .cStr b => Except.ok (.cBool (a ≤ b))
  | .Add, .cInt32 a, .cInt32 b => Except.ok (.cInt32 (a + b))
  | .Add, .cInt64 a, .cInt64 b => Except.ok (.cInt64 (a + b))
  | .Subtract, .cInt32 a, .cInt32 b => Except.ok (.cInt32 (a - b))
  | .Subtract, .cInt64 a, .cInt64 b => Except.ok (.cInt64 (a - b))
  | .Multiply, .cInt32 a, .cInt32 b => Except.ok (.cInt32 (a * b))
  | .Multiply, .cInt64 a, .cInt64 b => Except.ok (.cInt64 (a * b))
  | .Divide, .cInt32 a, .cInt32 b =>
    if b = 0 then Except.error (Failure.err ("attempt to divide by zero"))
    else Except.ok (.cInt32 (a.tdiv b))
  | .Divide, .cInt64 a, .cInt64 b =>
    if b = 0 then Except.error (Failure.err ("attempt to divide by zero"))
    else Except.ok (.cInt64 (a.tdiv b))
  | .Modulus, .cInt32 a, .cInt32 b =>
    if b = 0 then Except.error (Failure.err ("attempt to divide by zero"))
    else Except.ok (.cInt32 (a.tmod b))
  | .Modulus, .cInt64 a, .cInt64 b =>
    if b = 0 then Except.error (Failure.err ("attempt to divide by zero"))
    else Except.ok (.cInt64 (a.tmod b))
  | _, _, _ => Except.error (Failure.err ("unsupported operand types"))
where
  /-- Both cells carry the same type tag. -/
  sameCellType : Cell → Cell → Bool
  | .cBool _, .cBool _ => true
  | .cStr _, .cStr _ => true
  | .cInt32 _, .cInt32 _ => true
  | .cInt64 _, .cInt64 _ => true
  | .cFloat32 _, .cFloat32 _ => true
  | .cFloat64 _, .cFloat64 _ => true
  | _, _ => false

/-- Modelled from the spec: element-wise cast of one cell
(`physical_plan/expr.rs` is not under `src/`; spec section 4.3: numeric to
numeric, anything to `Utf8` via the textual form; anything else is an
invalid cast failing the batch). Casts the claims never touch (into
floats, from floats into integers) surface an error value. -/
def castCell (dt : DataType) (c : Cell) : Res Cell :=
  match dt, c with
  | .Int32, .cInt32 i => Except.ok (.cInt32 i)
  | .Int32, .cInt64 i => Except.ok (.cInt32 i)
  | .Int64, .cInt32 i => Except.ok (.cInt64 i)
  | .Int64, .cInt64 i => Except.ok (.cInt64 i)
  | .Utf8, .cStr s => Except.ok (.cStr s)
  | .Utf8, .cBool b => Except.ok (.cStr (toString b))
  | .Utf8, .cInt32 i => Except.ok (.cStr (toString i))
  | .Utf8, .cInt64 i => Except.ok (.cStr (toString i))
  | .Utf8, .cFloat32 b => Except.ok (.cStr (floatRepr b))
  | .Utf8, .cFloat64 b => Except.ok (.cStr (floatRepr b))
  | _, _ => Except.error (Failure.err ("invalid cast"))

/-- Modelled from the spec: `PhysicalExpr::evaluate`
(`physical_plan/expr.rs` is not under `src/`; spec section 4.3). A column
returns the batch's i-th column without copy (out of range panics); a
literal returns a constant column of the batch's row count; a cast maps
the element-wise cast over the evaluated operand; a binary expression
evaluates both sides, asserts equal lengths, and combines element-wise. -/
def PExpr.evaluate : PExpr → RecordBatch → Res ColumnArray
  | .column i, b =>
    match b.fields[i]? with
    | some c => Except.ok c
    | none => Except.error (Failure.panic ("index out of bounds"))
  | .literal v, b => Except.ok (ColumnArray.mk (List.replicate b.rowCount (cellOfScalar v)))
  | .cast e dt, b => do
    let c ← PExpr.evaluate e b
    let vs ← mapExc (castCell dt) c.values
    Except.ok (ColumnArray.mk vs)
  | .binaryExpr op l r, b => do
    let lc ← PExpr.evaluate l b
    let rc ← PExpr.evaluate r b
    if lc.size = rc.size then do
      let vs ← mapExc (fun p => cellBinOp op p.1 p.2) (lc.values.zip rc.values)
      Except.ok (ColumnArray.mk vs)
    else Except.error (Failure.panic ("assertion failed: sizes differ"))

/-- Rust `Result::expect(msg)`: an `Ok` passes through, an `Err` becomes a
panic carrying `msg` (the source formats the underlying error after the
message; the suffix is irrelevant to every claim and is omitted). A
failure that is already a panic propagates. -/
def expectPanic (msg : String) : Res α → Res α
  | .ok a => .ok a
  | .error (.err _) => .error (.panic msg)
  | .error (.panic m) => .error (.panic m)

/-- `ScanExec::execute` from `physical_plan/scan.rs`: delegate to the
source's `scan`, whose `Result` is always `Ok` for the in-memory source. -/
def scanExecExecute (ds : MemoryDataSource) (proj : List String) :
    Res (List RecordBatch) :=
  Except.ok (ds.scan proj)

/-- `ProjectionExec::execute` from `physical_plan/projection.rs`, as a
function of the input operator's own `execute()` result: for each input
batch, evaluate every stored expression with
`.expect("evaluate expr failed")` — an evaluation error value becomes a
panic — and tag the resulting columns with the stored schema. A failure
aborts the sequence: no batch at all is produced for the failing input
batch, nor for any later one. -/
def projectionExecExecute (inputRes : Res (List RecordBatch)) (schema : Schema)
    (exprs : List PExpr) : Res (List RecordBatch) := do
  let input ← inputRes
  mapExc (fun b => do
    let fields ← mapExc (fun e => expectPanic "evaluate expr failed" (e.evaluate b)) exprs
    Except.ok (RecordBatch.mk schema fields)) input

/-- The physical plan tree (`physical_plan/plan.rs` is not under `src/`;
the variants are those the planner produces: `ScanExec`
(`physical_plan/scan.rs`), `ProjectionExec` (`physical_plan/projection.rs`),
`SelectionExec` and `HashExec` (their files are not under `src/`)). -/
inductive PPlan
  | scanExec (data_source : MemoryDataSource) (projection : List String)
  | projectionExec (input : PPlan) (schema : Schema) (exprs : List PExpr)
  | selectionExec (input : PPlan) (expr : PExpr)
  | hashExec (input : PPlan) (schema : Schema) (group_exprs : List PExpr)
      (aggregate_exprs : List (PExpr × AggregateFunction))

/-- `PhysicalPlan::schema` of every physical node.
ScanExec (`physical_plan/scan.rs`): unconditionally
`source.schema().select(projection)` — note the missing empty-projection
special case the logical scan has.
ProjectionExec (`physical_plan/projection.rs`): the stored schema.
SelectionExec: modelled from the spec (`physical_plan/selection.rs` is not
under `src/`; spec section 4.4: identical schema to its input).
HashExec: modelled from the spec (`physical_plan/hash.rs` is not under
`src/`; spec section 4.5: the stored aggregate output schema). -/
def PPlan.schema : PPlan → Res Schema
  | .scanExec ds proj => ds.schema.select proj
  | .projectionExec _ sch _ => Except.ok sch
  | .selectionExec input _ => PPlan.schema input
  | .hashExec _ sch _ _ => Except.ok sch

/-- `QueryPlanner::create_physical_expr` from `query_planner/planner.rs`:
a named column becomes an indexed column via `position` in the input
plan's schema, surfacing an error value when the name is absent; an
indexed column, a literal, a cast and a binary expression lower
structurally; an alias lowers to its inner expression (the alias is
erased); `Not`, `ScalarFunction` and `AggregateFunction` at expression
position hit `unreachable!()` — a panic, not an error value. -/
def createPhysicalExpr : Expr → Plan → Res PExpr
  | .column name, input => do
    let sch ← Plan.schema input
    match position (fun f => f.name == name) sch.fields with
    | some i => Except.ok (PExpr.column i)
    | none => Except.error (Failure.err ("No column named " ++ name))
  | .columnIndex i, _ => Except.ok (PExpr.column i)
  | .literal v, _ => Except.ok (PExpr.literal v)
  | .cast e dt, input => do
    let pe ← createPhysicalExpr e input
    Except.ok (PExpr.cast pe dt)
  | .binaryExpr op l r, input => do
    let pl ← createPhysicalExpr l input
    let pr ← createPhysicalExpr r input
    Except.ok (PExpr.binaryExpr op pl pr)
  | .alias e _, input => createPhysicalExpr e input
  | .not _, _ =>
    Except.error (Failure.panic ("internal error: entered unreachable code"))
  | .scalarFunction _ _ _, _ =>
    Except.error (Failure.panic ("internal error: entered unreachable code"))
  | .aggregateFunction _ _ _, _ =>
    Except.error (Failure.panic ("internal error: entered unreachable code"))

/-- `QueryPlanner::create_physical_plan` from `query_planner/planner.rs`:
a logical scan lowers to `ScanExec` with the projection forwarded
verbatim; a projection lowers its input, lowers each expression against
the logical input, and stores the schema obtained by resolving each
expression against the logical input; a selection lowers input and
predicate; an aggregate lowers input, group and aggregate expressions
(an aggregate entry that is not an `AggregateFunction` hits
`unreachable!()`), and stores the logical aggregate's schema. -/
def createPhysicalPlan : Plan → Res PPlan
  | .scan _ ds proj => Except.ok (PPlan.scanExec ds proj)
  | .projection input exprs => do
    let pin ← createPhysicalPlan input
    let pexprs ← mapExc (fun e => createPhysicalExpr e input) exprs
    let pfields ← mapExc (fun e => Expr.to_field e input) exprs
    Except.ok (PPlan.projectionExec pin (Schema.mk pfields) pexprs)
  | .selection input e => do
    let pin ← createPhysicalPlan input
    let pe ← createPhysicalExpr e input
    Except.ok (PPlan.selectionExec pin pe)
  | .aggregate input gs aggs => do
    let pin ← createPhysicalPlan input
    let pgs ← mapExc (fun e => createPhysicalExpr e input) gs
    let pas ← mapExc (fun e =>
      match e with
      | .aggregateFunction fn inner _ => do
        let pe ← createPhysicalExpr inner input
        Except.ok (pe, fn)
      | _ => Except.error (Failure.panic ("internal error: entered unreachable code"))) aggs
    let sch ← Plan.schema (.aggregate input gs aggs)
    Except.ok (PPlan.hashExec pin sch pgs pas)

/-! Concrete inputs used by witnesses and counterexamples: a one-column
and a two-column source mirroring the source tests, and a schema with a
duplicated field name. -/

/-- A field named id of type Int32, as in the source tests. -/
def idField : Field := ⟨"id", .Int32⟩

/-- A field named name of type Utf8. -/
def nameField : Field := ⟨"name", .Utf8⟩

/-- The two-field schema of the Schema::select source test. -/
def demoSchema : Schema := ⟨[idField, nameField]⟩

/-- A schema with a duplicated field name: legal at schema level (the spec
notes name uniqueness is not enforced there). -/
def dupSchema : Schema := ⟨[⟨"a", .Int32⟩, ⟨"a", .Int64⟩]⟩

/-- An empty in-memory source over the duplicated-name schema. -/
def dupSource : MemoryDataSource := ⟨dupSchema, []⟩

/-- A scan of the duplicated-name source, with no projection. -/
def dupPlan : Plan := .scan "t" dupSource []

/-- The five-value Int32 column of the in-memory source test. -/
def col1 : ColumnArray := ⟨[.cInt32 1, .cInt32 2, .cInt32 3, .cInt32 4, .cInt32 5]⟩

/-- The one-field schema of the in-memory source test. -/
def idSchema : Schema := ⟨[idField]⟩

/-- The single stored batch of the in-memory source test. -/
def idBatch : RecordBatch := ⟨idSchema, [col1]⟩

/-- The in-memory source of the source test: one Int32 column id with
values 1..5. -/
def idSource : MemoryDataSource := ⟨idSchema, [idBatch]⟩

/-- A scan of the one-column source, with no projection. -/
def idPlan : Plan := .scan "t" idSource []

/-! Helper lemmas on the failure monad and on list search. -/

/-- Sequencing after a success runs the continuation. -/
@[simp] theorem resBindOk (a : α) (f : α → Res β) :
    (Except.ok a >>= f : Res β) = f a := rfl

/-- Sequencing after a failure short-circuits. -/
@[simp] theorem resBindErr (e : Failure) (f : α → Res β) :
    (Except.error e >>= f : Res β) = Except.error e := rfl

/-- A sequenced traversal that succeeds has one output per input. -/
theorem mapExc_ok_length {f : α → Res β} {xs : List α} {ys : List β}
    (h : mapExc f xs = .ok ys) : ys.length = xs.length := by
  induction xs generalizing ys with
  | nil =>
    simp only [mapExc, Except.ok.injEq] at h
    simp [← h]
  | cons x xs ih =>
    simp only [mapExc] at h
    cases hx : f x with
    | error e => rw [hx] at h; simp at h
    | ok y =>
      rw [hx] at h
      cases hxs : mapExc f xs with
      | error e => rw [hxs] at h; simp at h
      | ok ys' =>
        rw [hxs] at h
        simp only [resBindOk, Except.ok.injEq] at h
        subst h
        simp [ih hxs]

/-- Every output of a successful sequenced traversal comes from some
input. -/
theorem mapExc_ok_mem {f : α → Res β} {xs : List α} {ys : List β}
    (h : mapExc f xs = .ok ys) : ∀ y ∈ ys, ∃ x ∈ xs, f x = .ok y := by
  induction xs generalizing ys with
  | nil =>
    simp only [mapExc, Except.ok.injEq] at h
    simp [← h]
  | cons x xs ih =>
    simp only [mapExc] at h
    cases hx : f x with
    | error e => rw [hx] at h; simp at h
    | ok y =>
      rw [hx] at h
      cases hxs : mapExc f xs with
      | error e => rw [hxs] at h; simp at h
      | ok ys' =>
        rw [hxs] at h
        simp only [resBindOk, Except.ok.injEq] at h
        subst h
        intro z hz
        rcases List.mem_cons.mp hz with hz | hz
        · exact ⟨x, by simp, by rw [hx, hz]⟩
        · rcases ih hxs z hz with ⟨x', hx', hfx'⟩
          exact ⟨x', by simp [hx'], hfx'⟩

/-- A successful sequenced traversal succeeded on every input. -/
theorem mapExc_ok_of_mem {f : α → Res β} {xs : List α} {ys : List β}
    (h : mapExc f xs = .ok ys) : ∀ x ∈ xs, ∃ y, f x = .ok y := by
  induction xs generalizing ys with
  | nil => simp
  | cons x xs ih =>
    simp only [mapExc] at h
    cases hx : f x with
    | error e => rw [hx] at h; simp at h
    | ok y =>
      rw [hx] at h
      cases hxs : mapExc f xs with
      | error e => rw [hxs] at h; simp at h
      | ok ys' =>
        intro z hz
        rcases List.mem_cons.mp hz with hz | hz
        · subst hz; exact ⟨y, hx⟩
        · exact ih hxs z hz

/-- If the body never surfaces an error value, neither does the
traversal: its failures can only be panics. -/
theorem mapExc_isErr_false {f : α → Res β} (hf : ∀ x, isErrFailure (f x) = false)
    (xs : List α) : isErrFailure (mapExc f xs) = false := by
  induction xs with
  | nil => simp [mapExc, isErrFailure]
  | cons x xs ih =>
    simp only [mapExc]
    cases hx : f x with
    | error e =>
      have := hf x
      rw [hx] at this
      cases e with
      | err m => simp [isErrFailure] at this
      | panic m => simp [hx, isErrFailure]
    | ok y =>
      cases hxs : mapExc f xs with
      | error e =>
        rw [hxs] at ih
        cases e with
        | err m => simp [isErrFailure] at ih
        | panic m => simp [hx, hxs, isErrFailure]
      | ok ys => simp [hx, hxs, isErrFailure]

/-- Rust expect never surfaces an error value: it turns one into a
panic. -/
theorem expectPanic_isErr_false (msg : String) (r : Res α) :
    isErrFailure (expectPanic msg r) = false := by
  cases r with
  | ok a => simp [expectPanic, isErrFailure]
  | error e => cases e <;> simp [expectPanic, isErrFailure]

/-- Rust expect is the identity on successful results. -/
theorem expectPanic_ok_inv {msg : String} {r : Res α} {a : α}
    (h : expectPanic msg r = .ok a) : r = .ok a := by
  cases r with
  | ok b => simpa [expectPanic] using h
  | error e => cases e <;> simp [expectPanic] at h

/-- The first matching position is in range. -/
theorem position_lt_length {p : α → Bool} {l : List α} {i : Nat}
    (h : position p l = some i) : i < l.length := by
  induction l generalizing i with
  | nil => simp [position] at h
  | cons x xs ih =>
    simp only [position] at h
    by_cases hx : p x
    · simp [hx] at h
      simp [List.length_cons]
      omega
    · simp [hx] at h
      rcases h with ⟨j, hj, hji⟩
      have := ih hj
      simp [List.length_cons]
      omega

/-- There is a first matching position exactly when some element
matches. -/
theorem position_isSome_iff_any {p : α → Bool} {l : List α} :
    (position p l).isSome = l.any p := by
  induction l with
  | nil => simp [position]
  | cons x xs ih =>
    simp only [position, List.any_cons]
    by_cases hx : p x
    · simp [hx]
    · simp [hx, ih]

/-- Claim C1: for every binary logical expression and every input plan,
to_field resolves to a field named by the operator token with data type
Boolean, for all thirteen operators — the arithmetic ones included — and
the thirteen operator tokens are the ones listed in the source. -/
theorem claim_C1 :
    (∀ (input : Plan) (op : Operator) (l r : Expr),
      Expr.to_field (.binaryExpr op l r) input =
        .ok ⟨op.get_name, DataType.Boolean⟩) ∧
    Operator.get_name .And = "and" ∧ Operator.get_name .Or = "or" ∧
    Operator.get_name .Eq = "eq" ∧ Operator.get_name .Neq = "neq" ∧
    Operator.get_name .Gt = "gt" ∧ Operator.get_name .GtEq = "gteq" ∧
    Operator.get_name .Lt = "lt" ∧ Operator.get_name .LtEq = "lteq" ∧
    Operator.get_name .Add = "add" ∧ Operator.get_name .Subtract = "subtract" ∧
    Operator.get_name .Multiply = "mult" ∧ Operator.get_name .Divide = "div" ∧
    Operator.get_name .Modulus = "mod" := by
  refine ⟨fun input op l r => rfl, ?_⟩
  repeat' constructor

/-- Claim C4 counterexample: against a plan whose schema holds two fields
named a, the column expression a resolves to the first of them — it
returns a field instead of failing on the ambiguity. -/
theorem claim_C4_counterexample :
    (dupSchema.fields.filter (fun f => f.name == "a")).length = 2 ∧
    Expr.to_field (.column "a") dupPlan = .ok ⟨"a", DataType.Int32⟩ := by
  constructor
  · decide
  · rfl

/-- Claim C4 (amended): a column expression resolves to the first field
of the input schema carrying its name, and surfaces a resolution error
value when no field does; an ambiguous name is not detected — the first
match is returned. -/
theorem claim_C4 :
    ∀ (input : Plan) (name : String) (sch : Schema),
      Plan.schema input = .ok sch →
      (∀ f, sch.fields.find? (fun g => g.name == name) = some f →
        Expr.to_field (.column name) input = .ok f) ∧
      (sch.fields.find? (fun g => g.name == name) = none →
        Expr.to_field (.column name) input =
          .error (.err ("No column named " ++ name))) := by
  intro input name sch hsch
  constructor
  · intro f hf
    simp [Expr.to_field, toFieldAux, hsch, hf]
  · intro hf
    simp [Expr.to_field, toFieldAux, hsch, hf]

/-- Claim C4 witness: against the one-column source, id resolves to its
field and zzz surfaces a resolution error value. -/
theorem claim_C4_witness :
    Plan.schema idPlan = .ok idSchema ∧
    Expr.to_field (.column "id") idPlan = .ok idField ∧
    Expr.to_field (.column "zzz") idPlan = .error (.err ("No column named " ++ "zzz")) := by
  refine ⟨rfl, ?_, ?_⟩
  · exact (claim_C4 idPlan "id" idSchema rfl).1 idField (by decide)
  · exact (claim_C4 idPlan "zzz" idSchema rfl).2 (by decide)

/-- Claim C5 counterexample: lowering a bare Not or a ScalarFunction hits
the planner's unreachable arm — a panic, not an error value returned to
the caller. -/
theorem claim_C5_counterexample :
    isPanicFailure (createPhysicalExpr (.not (.literal (.Int32 1))) dupPlan) = true ∧
    isErrFailure (createPhysicalExpr (.not (.literal (.Int32 1))) dupPlan) = false ∧
    isPanicFailure (createPhysicalExpr (.scalarFunction "sqrt" [] .Float64) dupPlan) = true ∧
    isErrFailure (createPhysicalExpr (.scalarFunction "sqrt" [] .Float64) dupPlan) = false := by
  refine ⟨rfl, rfl, rfl, rfl⟩

/-- Claim C5 (amended): for every logical expression with a bare Not or
ScalarFunction at its root, lowering aborts with the unreachable-code
panic; no error value is returned to the caller. -/
theorem claim_C5 :
    (∀ (e : Expr) (input : Plan),
      createPhysicalExpr (.not e) input =
        .error (.panic "internal error: entered unreachable code")) ∧
    (∀ (n : String) (args : List Expr) (rt : DataType) (input : Plan),
      createPhysicalExpr (.scalarFunction n args rt) input =
        .error (.panic "internal error: entered unreachable code")) :=
  ⟨fun _ _ => rfl, fun _ _ _ _ => rfl⟩

/-- Claim C8: a logical scan's schema is the full source schema when the
projection list is empty and the projected selection otherwise, and a
scan has no children. -/
theorem claim_C8 :
    ∀ (path : String) (ds : MemoryDataSource) (proj : List String),
      (proj = [] → Plan.schema (.scan path ds proj) = .ok ds.schema) ∧
      (proj ≠ [] → Plan.schema (.scan path ds proj) = ds.schema.select proj) ∧
      Plan.children (.scan path ds proj) = [] := by
  intro path ds proj
  refine ⟨?_, ?_, rfl⟩
  · intro h; subst h; rfl
  · intro h
    have : proj.isEmpty = false := by
      cases proj with
      | nil => exact absurd rfl h
      | cons x xs => rfl
    simp [Plan.schema, this]

/-- Claim C8 witness: the scan of the one-column source has its source's
schema with an empty projection, the projected selection with projection
id, and no children. -/
theorem claim_C8_witness :
    Plan.schema (.scan "t" idSource []) = .ok idSource.schema ∧
    Plan.schema (.scan "t" idSource ["id"]) = idSource.schema.select ["id"] ∧
    Plan.children (.scan "t" idSource []) = [] :=
  ⟨(claim_C8 "t" idSource []).1 rfl,
   (claim_C8 "t" idSource ["id"]).2.1 (by simp),
   (claim_C8 "t" idSource []).2.2⟩

/-- Claim C10: the planner forwards an empty projection verbatim to
ScanExec, whose schema is unconditionally the projected selection — the
empty schema — while the logical scan's schema is the full source schema;
for a source with a non-empty schema the two differ. -/
theorem claim_C10 :
    ∀ (path : String) (ds : MemoryDataSource),
      ds.schema.fields ≠ [] →
      createPhysicalPlan (.scan path ds []) = .ok (.scanExec ds []) ∧
      PPlan.schema (.scanExec ds []) = .ok (Schema.mk []) ∧
      Plan.schema (.scan path ds []) = .ok ds.schema ∧
      PPlan.schema (.scanExec ds []) ≠ Plan.schema (.scan path ds []) := by
  intro path ds hne
  refine ⟨rfl, rfl, rfl, ?_⟩
  intro h
  rw [show PPlan.schema (.scanExec ds []) = .ok (Schema.mk []) from rfl,
      show Plan.schema (.scan path ds []) = .ok ds.schema from rfl] at h
  have : Schema.mk [] = ds.schema := by
    simpa using h
  apply hne
  rw [← this]

/-- Claim C10 witness: for the one-column in-memory source, lowering the
unprojected logical scan yields a ScanExec whose schema is empty while
the logical schema is the full one-field schema. -/
theorem claim_C10_witness :
    idSource.schema.fields ≠ [] ∧
    createPhysicalPlan (.scan "t" idSource []) = .ok (.scanExec idSource []) ∧
    PPlan.schema (.scanExec idSource []) = .ok (Schema.mk []) ∧
    Plan.schema (.scan "t" idSource []) = .ok idSource.schema ∧
    PPlan.schema (.scanExec idSource []) ≠ Plan.schema (.scan "t" idSource []) := by
  have h := claim_C10 "t" idSource (by decide)
  exact ⟨by decide, h.1, h.2.1, h.2.2.1, h.2.2.2⟩

/-! Lemmas about Schema::select. -/

/-- When exactly one field matches, the loop body yields the single
filtered field. -/
theorem selectOne_ok {s : Schema} {n : String}
    (h : (s.fields.filter (fun f => f.name == n)).length = 1) :
    selectOne s n =
      .ok ((s.fields.filter (fun f => f.name == n)).headD ⟨"", .Boolean⟩) := by
  unfold selectOne
  cases hl : s.fields.filter (fun f => f.name == n) with
  | nil => rw [hl] at h; simp at h
  | cons f t =>
    cases t with
    | nil => simp
    | cons g t' => rw [hl] at h; simp at h

/-- When zero or several fields match, the loop body panics. -/
theorem selectOne_panic {s : Schema} {n : String}
    (h : (s.fields.filter (fun f => f.name == n)).length ≠ 1) :
    selectOne s n =
      .error (.panic "assertion failed: fields.len() == 1") := by
  unfold selectOne
  cases hl : s.fields.filter (fun f => f.name == n) with
  | nil => simp
  | cons f t =>
    cases t with
    | nil => rw [hl] at h; simp at h
    | cons g t' => simp

/-- When the loop body yields a field, exactly that field matched. -/
theorem selectOne_ok_inv {s : Schema} {n : String} {f : Field}
    (h : selectOne s n = .ok f) :
    s.fields.filter (fun g => g.name == n) = [f] := by
  unfold selectOne at h
  cases hl : s.fields.filter (fun g => g.name == n) with
  | nil => rw [hl] at h; simp at h
  | cons g t =>
    cases t with
    | nil => rw [hl] at h; simp at h; rw [h]
    | cons g' t' => rw [hl] at h; simp at h

/-- The select loop over names that all match exactly once yields, in the
order of the names, the single field matching each. -/
theorem mapExc_selectOne_ok {s : Schema} :
    ∀ (names : List String),
      (∀ n ∈ names, (s.fields.filter (fun f => f.name == n)).length = 1) →
      mapExc (selectOne s) names =
        .ok (names.map (fun n =>
          (s.fields.filter (fun f => f.name == n)).headD ⟨"", .Boolean⟩)) := by
  intro names h
  induction names with
  | nil => rfl
  | cons n ns ih =>
    simp only [mapExc, selectOne_ok (h n (by simp)), resBindOk,
      ih (fun m hm => h m (by simp [hm])), List.map_cons]

/-- The select loop over names one of which does not match exactly once
panics. -/
theorem mapExc_selectOne_panic {s : Schema} :
    ∀ (names : List String),
      (∃ n ∈ names, (s.fields.filter (fun f => f.name == n)).length ≠ 1) →
      mapExc (selectOne s) names =
        .error (.panic "assertion failed: fields.len() == 1") := by
  intro names h
  induction names with
  | nil => simp at h
  | cons n ns ih =>
    by_cases hn : (s.fields.filter (fun f => f.name == n)).length = 1
    · have hex : ∃ m ∈ ns, (s.fields.filter (fun f => f.name == m)).length ≠ 1 := by
        rcases h with ⟨m, hm, hne⟩
        rcases List.mem_cons.mp hm with hm | hm
        · subst hm; exact absurd hn hne
        · exact ⟨m, hm, hne⟩
      simp only [mapExc, selectOne_ok hn, resBindOk, ih hex, resBindErr]
    · simp only [mapExc, selectOne_panic hn, resBindErr]

/-- A successful select matched every requested name exactly once and has
one output field per requested name. -/
theorem select_ok_inv {s : Schema} {names : List String} {t : Schema}
    (h : Schema.select s names = .ok t) :
    (∀ n ∈ names, (s.fields.filter (fun f => f.name == n)).length = 1) ∧
    t.fields.length = names.length := by
  unfold Schema.select at h
  cases hm : mapExc (selectOne s) names with
  | error e => rw [hm] at h; simp at h
  | ok fs =>
    rw [hm] at h
    simp only [resBindOk, Except.ok.injEq] at h
    subst h
    constructor
    · intro n hn
      rcases mapExc_ok_of_mem hm n hn with ⟨f, hf⟩
      rw [selectOne_ok_inv hf]
      rfl
    · exact mapExc_ok_length hm

/-- Claim C3 counterexample: a requested name matching zero fields, and
one matching two fields, both make select panic through its assertion —
no error result is surfaced to the caller. -/
theorem claim_C3_counterexample :
    (demoSchema.fields.filter (fun f => f.name == "zzz")).length = 0 ∧
    isErrFailure (Schema.select demoSchema ["zzz"]) = false ∧
    isPanicFailure (Schema.select demoSchema ["zzz"]) = true ∧
    (dupSchema.fields.filter (fun f => f.name == "a")).length = 2 ∧
    isErrFailure (Schema.select dupSchema ["a"]) = false ∧
    isPanicFailure (Schema.select dupSchema ["a"]) = true := by
  decide

/-- Claim C3 (amended): when every requested name matches exactly one
field, select returns the matching fields in the order of the names; when
some requested name matches zero fields or more than one, select does not
complete normally — but it aborts through an assertion panic instead of
surfacing an error result to the caller. -/
theorem claim_C3 :
    ∀ (s : Schema) (names : List String),
      ((∀ n ∈ names, (s.fields.filter (fun f => f.name == n)).length = 1) →
        Schema.select s names =
          .ok ⟨names.map (fun n =>
            (s.fields.filter (fun f => f.name == n)).headD ⟨"", .Boolean⟩)⟩) ∧
      ((∃ n ∈ names, (s.fields.filter (fun f => f.name == n)).length ≠ 1) →
        Schema.select s names =
          .error (.panic "assertion failed: fields.len() == 1")) := by
  intro s names
  constructor
  · intro h
    unfold Schema.select
    rw [mapExc_selectOne_ok names h]
    rfl
  · intro h
    unfold Schema.select
    rw [mapExc_selectOne_panic names h]
    rfl

/-- Claim C3 witness: selecting name then id from the two-field schema
returns the two fields in that order; selecting zzz panics. -/
theorem claim_C3_witness :
    (∀ n ∈ ["name", "id"],
      (demoSchema.fields.filter (fun f => f.name == n)).length = 1) ∧
    Schema.select demoSchema ["name", "id"] =
      .ok ⟨["name", "id"].map (fun n =>
        (demoSchema.fields.filter (fun f => f.name == n)).headD ⟨"", .Boolean⟩)⟩ ∧
    (∃ n ∈ ["zzz"],
      (demoSchema.fields.filter (fun f => f.name == n)).length ≠ 1) ∧
    Schema.select demoSchema ["zzz"] =
      .error (.panic "assertion failed: fields.len() == 1") :=
  ⟨by decide, (claim_C3 demoSchema ["name", "id"]).1 (by decide),
   by decide, (claim_C3 demoSchema ["zzz"]).2 (by decide)⟩

/-! Lemmas for the select round-trip. -/

/-- No field of a list carries a name absent from the list's names. -/
theorem filter_name_eq_nil {l : List Field} {n : String}
    (h : n ∉ l.map Field.name) : l.filter (fun g => g.name == n) = [] := by
  induction l with
  | nil => rfl
  | cons x xs ih =>
    simp only [List.map_cons, List.mem_cons] at h
    push_neg at h
    have hx : (x.name == n) = false := by
      simp [beq_eq_false_iff_ne]
      intro he
      exact h.1 (by rw [he])
    simp only [List.filter_cons, hx]
    exact ih h.2

/-- Under distinct field names, filtering a list of fields by the name of
one of its members yields exactly that member. -/
theorem nodup_filter_self {l : List Field}
    (hnd : (l.map Field.name).Nodup) :
    ∀ f ∈ l, l.filter (fun g => g.name == f.name) = [f] := by
  induction l with
  | nil => simp
  | cons x xs ih =>
    simp only [List.map_cons, List.nodup_cons] at hnd
    intro f hf
    rcases List.mem_cons.mp hf with hf | hf
    · subst hf
      simp only [List.filter_cons, beq_self_eq_true, if_pos]
      rw [filter_name_eq_nil hnd.1]
    · have hne : (x.name == f.name) = false := by
        simp [beq_eq_false_iff_ne]
        intro he
        exact hnd.1 (by rw [he]; exact List.mem_map_of_mem Field.name hf)
      simp only [List.filter_cons, hne]
      exact ih hnd.2 f hf

/-- The select loop over the names of a list of fields with pairwise
distinct names yields those fields back. -/
theorem mapExc_selectOne_self {s : Schema} :
    ∀ (sub : List Field),
      (∀ f ∈ sub, s.fields.filter (fun g => g.name == f.name) = [f]) →
      mapExc (selectOne s) (sub.map Field.name) = .ok sub := by
  intro sub h
  induction sub with
  | nil => rfl
  | cons f fs ih =>
    have hf : selectOne s f.name = .ok f := by
      unfold selectOne
      rw [h f (by simp)]
    simp only [List.map_cons, mapExc, hf, resBindOk,
      ih (fun g hg => h g (by simp [hg]))]

/-- Claim C9 counterexample: a schema with a duplicated field name does
not round-trip through select of its own names — the assertion panics
instead of returning the schema. -/
theorem claim_C9_counterexample :
    Schema.select dupSchema (dupSchema.fields.map Field.name) =
      .error (.panic "assertion failed: fields.len() == 1") ∧
    Schema.select dupSchema (dupSchema.fields.map Field.name) ≠ .ok dupSchema := by
  have e : Schema.select dupSchema (dupSchema.fields.map Field.name) =
      .error (.panic "assertion failed: fields.len() == 1") := by rfl
  refine ⟨e, ?_⟩
  rw [e]
  simp

/-- Claim C9 (amended): for every schema whose field names are pairwise
distinct, selecting all of its own field names in order round-trips to
the schema itself; with a duplicated name the assertion panics instead. -/
theorem claim_C9 :
    ∀ s : Schema, (s.fields.map Field.name).Nodup →
      Schema.select s (s.fields.map Field.name) = .ok s := by
  intro s hnd
  unfold Schema.select
  rw [mapExc_selectOne_self s.fields (nodup_filter_self hnd)]
  rfl

/-- Claim C9 witness: the two-field schema has distinct names and
round-trips through select. -/
theorem claim_C9_witness :
    (demoSchema.fields.map Field.name).Nodup ∧
    Schema.select demoSchema (demoSchema.fields.map Field.name) = .ok demoSchema :=
  ⟨by decide, claim_C9 demoSchema (by decide)⟩

/-! The in-memory scan against the specified column selection. -/

/-- Some field of the schema carries the given name. -/
def Schema.hasColumn (s : Schema) (n : String) : Bool :=
  s.fields.any (fun f => f.name == n)

/-- Index of the first field of the schema carrying the given name (the
field count when no field does; only applied to present names). -/
def firstIndexOf (s : Schema) (n : String) : Nat :=
  (position (fun f => f.name == n) s.fields).getD s.fields.length

/-- The in-memory scan as the spec describes it, stated for comparison
with the source translation: one emitted batch per stored batch, holding
exactly the columns whose names appear in both the projection and the
source schema, in projection order, each taken at the first schema
position of its name; names unknown to the schema are dropped without an
error, and an empty projection leaves every emitted batch without
columns. -/
def memoryScanSpec (ds : MemoryDataSource) (proj : List String) :
    List RecordBatch :=
  ds.data.map (fun b =>
    RecordBatch.mk ds.schema
      ((proj.filter (fun n => ds.schema.hasColumn n)).map
        (fun n => b.field (firstIndexOf ds.schema n))))

/-- Collecting the first-position indices of the projected names equals
keeping the present names and mapping each to its first position. -/
theorem filterMap_position_eq {fields : List Field} :
    ∀ (proj : List String),
      proj.filterMap (fun n => position (fun f => f.name == n) fields) =
        (proj.filter (fun n => fields.any (fun f => f.name == n))).map
          (fun n => (position (fun f => f.name == n) fields).getD fields.length) := by
  intro proj
  induction proj with
  | nil => rfl
  | cons n ns ih =>
    cases hp : position (fun f => f.name == n) fields with
    | some i =>
      have hany : fields.any (fun f => f.name == n) = true := by
        rw [← position_isSome_iff_any, hp]
        rfl
      simp only [List.filterMap_cons, hp, List.filter_cons, hany, if_pos,
        List.map_cons, Option.getD_some, ih]
    | none =>
      have hany : fields.any (fun f => f.name == n) = false := by
        rw [← position_isSome_iff_any, hp]
        rfl
      simp only [List.filterMap_cons, hp, List.filter_cons, hany,
        Bool.false_eq_true, if_neg, ih]
      simp

/-- Claim C7: the in-memory scan emits one batch per stored batch,
containing exactly the columns whose names appear in both the projection
and the source schema, in projection order (unknown names silently
dropped, without an error), and an empty projection yields batches with
no columns. -/
theorem claim_C7 :
    ∀ (ds : MemoryDataSource) (proj : List String),
      ds.scan proj = memoryScanSpec ds proj ∧
      (ds.scan proj).length = ds.data.length ∧
      ds.scan [] = ds.data.map (fun _ => RecordBatch.mk ds.schema []) := by
  intro ds proj
  refine ⟨?_, ?_, ?_⟩
  · unfold MemoryDataSource.scan memoryScanSpec
    rw [filterMap_position_eq proj]
    apply List.map_congr_left
    intro _b _
    rw [List.map_map]
    rfl
  · unfold MemoryDataSource.scan
    simp
  · unfold MemoryDataSource.scan
    simp

/-! Lemmas for the batch-shape invariant. -/

/-- Keeping one output per input requires every input to produce one. -/
theorem filterMap_length_of_isSome {g : α → Option β} :
    ∀ {xs : List α}, (∀ x ∈ xs, (g x).isSome) →
      (xs.filterMap g).length = xs.length := by
  intro xs h
  induction xs with
  | nil => rfl
  | cons x xs ih =>
    cases hx : g x with
    | none =>
      have := h x (by simp)
      rw [hx] at this
      simp at this
    | some y =>
      simp only [List.filterMap_cons, hx, List.length_cons]
      rw [ih (fun z hz => h z (by simp [hz]))]

/-- An in-range default read is a member of the list. -/
theorem getD_mem_of_lt {l : List α} {i : Nat} {d : α} (h : i < l.length) :
    l.getD i d ∈ l := by
  rw [List.getD_eq_getElem l d h]
  exact List.getElem_mem h

/-- A name matched by exactly one field is present in the field list. -/
theorem any_of_filter_length_one {l : List Field} {n : String}
    (h : (l.filter (fun f => f.name == n)).length = 1) :
    l.any (fun f => f.name == n) = true := by
  cases hl : l.filter (fun f => f.name == n) with
  | nil => rw [hl] at h; simp at h
  | cons f t =>
    have hf : f ∈ l.filter (fun f => f.name == n) := by rw [hl]; simp
    have := List.mem_filter.mp hf
    rw [List.any_eq_true]
    exact ⟨f, this.1, this.2⟩

/-- Modelled from the spec: a well-formed batch has every column of the
common row count (spec section 3, RecordBatch invariant). -/
def batchWF (b : RecordBatch) : Prop :=
  ∀ c ∈ b.fields, c.size = b.rowCount

/-- Physical expression evaluation preserves the row count: over a
well-formed batch, every successfully evaluated column has the batch's
row count (spec section 8, third invariant). -/
theorem evaluate_size {b : RecordBatch} (hwf : batchWF b) :
    ∀ (e : PExpr) (c : ColumnArray), e.evaluate b = .ok c → c.size = b.rowCount := by
  intro e
  induction e with
  | column i =>
    intro c h
    unfold PExpr.evaluate at h
    cases hi : b.fields[i]? with
    | none => rw [hi] at h; simp at h
    | some col =>
      rw [hi] at h
      simp only [Except.ok.injEq] at h
      subst h
      exact hwf col (List.getElem?_mem hi)
  | literal v =>
    intro c h
    unfold PExpr.evaluate at h
    simp only [Except.ok.injEq] at h
    subst h
    simp [ColumnArray.size]
  | cast e dt ih =>
    intro c h
    unfold PExpr.evaluate at h
    cases he : e.evaluate b with
    | error f => rw [he] at h; simp at h
    | ok c0 =>
      rw [he] at h
      simp only [resBindOk] at h
      cases hm : mapExc (castCell dt) c0.values with
      | error f => rw [hm] at h; simp at h
      | ok vs =>
        rw [hm] at h
        simp only [resBindOk, Except.ok.injEq] at h
        subst h
        have : vs.length = c0.values.length := mapExc_ok_length hm
        rw [show (ColumnArray.mk vs).size = vs.length from rfl, this]
        exact ih c0 he
  | binaryExpr op l r ihl ihr =>
    intro c h
    unfold PExpr.evaluate at h
    cases hel : l.evaluate b with
    | error f => rw [hel] at h; simp at h
    | ok lc =>
      rw [hel] at h
      simp only [resBindOk] at h
      cases her : r.evaluate b with
      | error f => rw [her] at h; simp at h
      | ok rc =>
        rw [her] at h
        simp only [resBindOk] at h
        by_cases hsz : lc.size = rc.size
        · rw [if_pos hsz] at h
          cases hm : mapExc (fun p => cellBinOp op p.1 p.2) (lc.values.zip rc.values) with
          | error f => rw [hm] at h; simp at h
          | ok vs =>
            rw [hm] at h
            simp only [resBindOk, Except.ok.injEq] at h
            subst h
            have hv : vs.length = (lc.values.zip rc.values).length := mapExc_ok_length hm
            have hzip : (lc.values.zip rc.values).length = lc.values.length := by
              rw [List.length_zip]
              have : lc.values.length = rc.values.length := hsz
              omega
            rw [show (ColumnArray.mk vs).size = vs.length from rfl, hv, hzip]
            exact ihl lc hel
        · rw [if_neg hsz] at h
          simp at h

/-- Claim C2: every batch a physical operator emits has one column per
field of the operator's schema, all columns of one size. First part: the
scan over the in-memory source, whenever its schema resolves (the
projected selection succeeds) and the stored batches are well-formed.
Second part: the projection operator, whenever its stored schema has one
field per expression (as the planner builds it) and the input batches are
well-formed. -/
theorem claim_C2 :
    (∀ (ds : MemoryDataSource) (proj : List String) (s : Schema),
      PPlan.schema (.scanExec ds proj) = .ok s →
      (∀ b ∈ ds.data, b.fields.length = ds.schema.fields.length) →
      (∀ b ∈ ds.data, ∀ c ∈ b.fields, ∀ c' ∈ b.fields, c.size = c'.size) →
      ∀ out ∈ ds.scan proj,
        out.fields.length = s.fields.length ∧
        ∀ c ∈ out.fields, ∀ c' ∈ out.fields, c.size = c'.size) ∧
    (∀ (batches : List RecordBatch) (sch : Schema) (exprs : List PExpr)
        (outs : List RecordBatch),
      sch.fields.length = exprs.length →
      (∀ b ∈ batches, batchWF b) →
      projectionExecExecute (.ok batches) sch exprs = .ok outs →
      ∀ out ∈ outs,
        out.fields.length = sch.fields.length ∧
        ∀ c ∈ out.fields, ∀ c' ∈ out.fields, c.size = c'.size) := by
  constructor
  · intro ds proj s hs hlen hsz out hout
    have hsel : Schema.select ds.schema proj = .ok s := hs
    have hinv := select_ok_inv hsel
    unfold MemoryDataSource.scan at hout
    rcases List.mem_map.mp hout with ⟨b, hb, hbout⟩
    subst hbout
    have hsome : ∀ n ∈ proj,
        (position (fun f => f.name == n) ds.schema.fields).isSome := by
      intro n hn
      rw [position_isSome_iff_any]
      exact any_of_filter_length_one (hinv.1 n hn)
    constructor
    · simp only [List.length_map]
      rw [filterMap_length_of_isSome hsome, hinv.2]
    · intro c hc c' hc'
      have hmem : ∀ x ∈ (proj.filterMap
          (fun n => position (fun f => f.name == n) ds.schema.fields)).map
            (fun i => b.field i), x ∈ b.fields := by
        intro x hx
        rcases List.mem_map.mp hx with ⟨i, hi, hix⟩
        rcases List.mem_filterMap.mp hi with ⟨n, _, hpos⟩
        have hilt : i < ds.schema.fields.length := position_lt_length hpos
        rw [← hix]
        unfold RecordBatch.field
        exact getD_mem_of_lt (by rw [hlen b hb]; exact hilt)
      exact hsz b hb c (hmem c hc) c' (hmem c' hc')
  · intro batches sch exprs outs hlen hwf hexec out hout
    simp only [projectionExecExecute, resBindOk] at hexec
    rcases mapExc_ok_mem hexec out hout with ⟨b, hb, hgb⟩
    cases hm : mapExc (fun e => expectPanic "evaluate expr failed" (e.evaluate b)) exprs with
    | error f => rw [hm] at hgb; simp at hgb
    | ok fields =>
      rw [hm] at hgb
      simp only [resBindOk, Except.ok.injEq] at hgb
      subst hgb
      constructor
      · rw [show (RecordBatch.mk sch fields).fields = fields from rfl,
          mapExc_ok_length hm, hlen]
      · intro c hc c' hc'
        have hsize : ∀ x ∈ fields, x.size = b.rowCount := by
          intro x hx
          rcases mapExc_ok_mem hm x hx with ⟨e, _, hex⟩
          exact evaluate_size (hwf b hb) e x (expectPanic_ok_inv hex)
        rw [hsize c hc, hsize c' hc']

/-- Claim C2 witness: the scan of the one-column source under the
non-trivial projection id emits a batch whose single column matches the
one-field projected schema, all columns of one size. -/
theorem claim_C2_witness :
    PPlan.schema (.scanExec idSource ["id"]) = .ok idSchema ∧
    (∀ b ∈ idSource.data, b.fields.length = idSource.schema.fields.length) ∧
    RecordBatch.mk idSchema [col1] ∈ idSource.scan ["id"] ∧
    (RecordBatch.mk idSchema [col1]).fields.length = idSchema.fields.length ∧
    (∀ c ∈ (RecordBatch.mk idSchema [col1]).fields,
      ∀ c' ∈ (RecordBatch.mk idSchema [col1]).fields, c.size = c'.size) := by
  have h := (claim_C2.1 idSource ["id"] idSchema (by decide) (by decide)
    (by decide) (RecordBatch.mk idSchema [col1]) (by decide))
  exact ⟨by decide, by decide, by decide, h.1, h.2⟩

/-! Lemmas for the failure mode of the projection operator. -/

/-- Continuing a computation with a plain success keeps it free of
surfaced error values. -/
theorem isErr_bind_ok {r : Res α} (h : isErrFailure r = false) (w : α → β) :
    isErrFailure (r >>= fun a => Except.ok (w a)) = false := by
  cases r with
  | ok a => simp [isErrFailure]
  | error e => cases e with
    | err m => simp [isErrFailure] at h
    | panic m => simp [isErrFailure]

/-- Claim C6 counterexample: an integer division by zero makes expression
evaluation fail with an error value, yet the projection operator turns it
into a panic — the caller of the sequence receives no error value, only
an abort. -/
theorem claim_C6_counterexample :
    isErrFailure (PExpr.evaluate
      (.binaryExpr .Divide (.column 0) (.literal (.Int32 0))) idBatch) = true ∧
    isErrFailure (projectionExecExecute (.ok [idBatch]) idSchema
      [.binaryExpr .Divide (.column 0) (.literal (.Int32 0))]) = false ∧
    isPanicFailure (projectionExecExecute (.ok [idBatch]) idSchema
      [.binaryExpr .Divide (.column 0) (.literal (.Int32 0))]) = true := by
  decide

/-- Claim C6 (amended): whenever evaluating one of the projection's
expressions over one of its input batches fails with an error value, the
whole sequence aborts with a panic (through expect): no batch list is
produced — so no partial batch is emitted — and no error value reaches
the caller. -/
theorem claim_C6 :
    ∀ (batches : List RecordBatch) (sch : Schema) (exprs : List PExpr),
      (∃ b ∈ batches, ∃ e ∈ exprs, isErrFailure (PExpr.evaluate e b) = true) →
      isPanicFailure (projectionExecExecute (.ok batches) sch exprs) = true ∧
      isErrFailure (projectionExecExecute (.ok batches) sch exprs) = false ∧
      ∀ outs, projectionExecExecute (.ok batches) sch exprs ≠ .ok outs := by
  intro batches sch exprs hex
  have hnotok : ∀ outs, projectionExecExecute (.ok batches) sch exprs ≠ .ok outs := by
    intro outs h
    simp only [projectionExecExecute, resBindOk] at h
    rcases hex with ⟨b, hb, e, he, herr⟩
    rcases mapExc_ok_of_mem h b hb with ⟨out, hout⟩
    cases hm : mapExc (fun e => expectPanic "evaluate expr failed" (e.evaluate b)) exprs with
    | error f => rw [hm] at hout; simp at hout
    | ok fields =>
      rcases mapExc_ok_of_mem hm e he with ⟨c, hc⟩
      have := expectPanic_ok_inv hc
      rw [this] at herr
      simp [isErrFailure] at herr
  have hnoerr : isErrFailure (projectionExecExecute (.ok batches) sch exprs) = false := by
    simp only [projectionExecExecute, resBindOk]
    apply mapExc_isErr_false
    intro b
    exact isErr_bind_ok
      (mapExc_isErr_false (fun e => expectPanic_isErr_false _ _) exprs)
      (fun fields => RecordBatch.mk sch fields)
  refine ⟨?_, hnoerr, hnotok⟩
  cases hres : projectionExecExecute (.ok batches) sch exprs with
  | ok outs => exact absurd hres (hnotok outs)
  | error f =>
    cases f with
    | err m => rw [hres] at hnoerr; simp [isErrFailure] at hnoerr
    | panic m => simp [isPanicFailure]

/-- Claim C6 witness: a division by zero in the single projected
expression over the five-row batch makes the projection abort with a
panic rather than return batches. -/
theorem claim_C6_witness :
    (∃ b ∈ [idBatch], ∃ e ∈ [PExpr.binaryExpr .Divide (.column 0) (.literal (.Int32 0))],
      isErrFailure (PExpr.evaluate e b) = true) ∧
    isPanicFailure (projectionExecExecute (.ok [idBatch]) idSchema
      [.binaryExpr .Divide (.column 0) (.literal (.Int32 0))]) = true :=
  ⟨by decide,
   (claim_C6 [idBatch] idSchema
     [.binaryExpr .Divide (.column 0) (.literal (.Int32 0))] (by decide)).1⟩

end Rq
